import Mathlib

/-!
Verification of the redaction-shield utility (`src/shields/redaction_shield.py`
and `src/shields/config.py`).

The development shallowly embeds the Python code:

* a small regular-expression engine models the subset of Python's `re`
  module exercised by the repository's patterns: literal characters,
  escaped literals, the word-boundary assertion `\b`, character classes
  such as `[_-]`, and the greedy `?` quantifier, all compiled with
  `re.IGNORECASE`; `re.sub`/`re.findall` are modelled by a left-to-right
  scan replacing the leftmost backtracking match, exactly as CPython does;
* rule dictionaries become `PatternRule` records with optional fields
  (a missing field models a dict without that key, raising `KeyError`);
* Python exception flow is modelled with `Except ExcClass`, where
  `ExcClass.valueError` stands for `ValueError` (the class named in the
  repository's `except ValueError` handlers) and `ExcClass.otherError`
  for every other exception class (`TypeError`, `re.error`, ...); the
  duck-typed operations that may raise (pydantic `model_dump`, config
  attribute access, message copying, `re.sub` on untyped replacement
  values) are parameters of the corresponding generic definitions.

Logging is an effect outside the embedding and is not modelled.
-/

namespace Shields

/-! ## Python exception classes, coarsely partitioned -/

/-- Exception classes, partitioned by what the repository's `except`
clauses distinguish: `valueError` is `ValueError`, `otherError` is any
other exception class (e.g. `TypeError`, `re.error`). An
`except Exception` handler catches both. -/
inductive ExcClass where
  | valueError
  | otherError
deriving DecidableEq

/-! ## Characters: case folding and word characters, as in `re` for ASCII -/

/-- ASCII word character, Python's `\w` for ASCII text: letters, digits, underscore. -/
def isWordChar (c : Char) : Bool := c.isAlphanum || c = '_'

/-- Word-character test on an optional character; `none` (the edge of the
string) counts as a non-word position. -/
def isWordOpt : Option Char → Bool
  | none => false
  | some c => isWordChar c

/-- Python's `\b`: a word boundary lies between two positions iff exactly one
side holds a word character (string edges count as non-word). -/
def boundary (prev next : Option Char) : Bool := isWordOpt prev != isWordOpt next

/-- Case-insensitive character comparison (`re.IGNORECASE`, ASCII). -/
def charCI (c d : Char) : Bool := c.toLower = d.toLower

/-! ## Regular expressions: the subset of `re` syntax used by the repository -/

/-- One item of a character class: a single character or a range. -/
inductive ClsItem where
  | single (c : Char)
  | range (lo hi : Char)
deriving DecidableEq

/-- Abstract syntax of the supported regular-expression subset. -/
inductive Regex where
  | eps
  | lit (c : Char)
  | cls (items : List ClsItem)
  | wordB
  | seq (r1 r2 : Regex)
  | opt (r : Regex)
deriving DecidableEq

/-- Case-insensitive match of one text character against a class item. -/
def clsItemMatch (d : Char) : ClsItem → Bool
  | .single c => charCI c d
  | .range lo hi =>
      (decide (lo ≤ d) && decide (d ≤ hi))
        || (decide (lo ≤ d.toLower) && decide (d.toLower ≤ hi))
        || (decide (lo ≤ d.toUpper) && decide (d.toUpper ≤ hi))

/-! ### Parser (`re.compile`), with failure modelling `re.error`

The parser accepts the pattern subset listed above and fails (`none`) on
anything else; in particular it fails on an unterminated character class
such as `"[invalid"` and on a trailing backslash, which are `re.error`s
in Python as well. -/

/-- Parse the items of a character class after the opening `[`, up to the
closing `]`. Fails on an unterminated class. -/
def parseClsItems : List Char → Option (List ClsItem × List Char)
  | [] => none
  | ']' :: rest => some ([], rest)
  | '\\' :: c :: rest =>
      if c.isAlphanum then none
      else (parseClsItems rest).map (fun p => (.single c :: p.1, p.2))
  | c :: '-' :: d :: rest =>
      if d = ']' then some ([.single c, .single '-'], rest)
      else (parseClsItems rest).map (fun p => (.range c d :: p.1, p.2))
  | c :: rest => (parseClsItems rest).map (fun p => (.single c :: p.1, p.2))

/-- Characters this subset does not support as plain literals; encountering
one makes the parse fail. -/
def unsupportedMeta (c : Char) : Bool :=
  c = '*' || c = '+' || c = '(' || c = ')' || c = '|' || c = '.' || c = '^' || c = '$'
    || c = '\x7b' || c = '\x7d'

/-- Main parse loop, building the atom list left to right; `?` wraps the
previous atom in `Regex.opt`. Fuel bounds the recursion; one unit per
consumed character plus one is always enough. -/
def parseLoop : Nat → List Char → List Regex → Option (List Regex)
  | 0, _, _ => none
  | _ + 1, [], acc => some acc.reverse
  | fuel + 1, '?' :: rest, acc =>
      match acc with
      | [] => none
      | a :: acc' => parseLoop fuel rest (.opt a :: acc')
  | _ + 1, ['\\'], _ => none
  | fuel + 1, '\\' :: 'b' :: rest, acc => parseLoop fuel rest (.wordB :: acc)
  | fuel + 1, '\\' :: c :: rest, acc =>
      if c.isAlphanum then none else parseLoop fuel rest (.lit c :: acc)
  | fuel + 1, '[' :: rest, acc =>
      match parseClsItems rest with
      | some (items, r) => parseLoop fuel r (.cls items :: acc)
      | none => none
  | fuel + 1, c :: rest, acc =>
      if unsupportedMeta c then none else parseLoop fuel rest (.lit c :: acc)

/-- Sequence a list of atoms. -/
def mkSeq (atoms : List Regex) : Regex := atoms.foldr .seq .eps

/-- Model of `re.compile(pattern, re.IGNORECASE)` restricted to the supported
subset: `none` models `re.error`. Case-insensitivity is built into the
matcher (`charCI`, `clsItemMatch`), mirroring the flag. -/
def parseRegex (s : String) : Option Regex :=
  (parseLoop (s.length + 1) s.data [] ).map mkSeq

/-! ### Matcher

A continuation-passing backtracking matcher. The state is
`(prev, rest)`: the character just before the current position (`none`
at the start of the text, needed by `\b`) and the remaining text. The
matcher tries alternatives in exactly CPython's order (greedy `?` first),
returning the first state in which the continuation succeeds. -/

/-- Backtracking matcher; `k` is the continuation applied to the state after
`r` has matched. -/
def mtch : Regex → Option Char × List Char →
    (Option Char × List Char → Option (Option Char × List Char)) →
    Option (Option Char × List Char)
  | .eps, st, k => k st
  | .lit _, (_, []), _ => none
  | .lit c, (_, d :: rest), k => if charCI c d then k (some d, rest) else none
  | .cls _, (_, []), _ => none
  | .cls items, (_, d :: rest), k =>
      if items.any (fun i => clsItemMatch d i) then k (some d, rest) else none
  | .wordB, (prev, rest), k => if boundary prev rest.head? then k (prev, rest) else none
  | .seq r1 r2, st, k => mtch r1 st (fun st1 => mtch r2 st1 k)
  | .opt r, st, k =>
      match mtch r st k with
      | some res => some res
      | none => k st

/-- Length (in characters) of the leftmost-starting backtracking match of `r`
at the current position, or `none` if `r` does not match here. -/
def matchLen (r : Regex) (prev : Option Char) (rest : List Char) : Option Nat :=
  match mtch r (prev, rest) (fun st => some st) with
  | some st => some (rest.length - st.2.length)
  | none => none

/-! ### Substitution scan (`re.sub` / `re.findall`)

`re.sub` scans positions left to right; at each position it attempts a
match, replaces the matched span on success (advancing past it, or past
one character for an empty match), and otherwise copies one character.
`re.findall` performs the same scan, so the pair returned below yields
both the substituted text and the number of matches `findall` reports.
The scan is parameterised by the matcher `m` so that the same scanner
serves the engine (`matchLen r`) and the specification-side matchers.
Fuel keeps the recursion structural; `length + 1` units always suffice,
and every statement below relates scans running with equal fuel. -/

/-- One `re.sub`-style scan with fuel: returns the substituted text and the
match count. -/
def scanSubF (m : Option Char → List Char → Option Nat) (repl : List Char) :
    Nat → Option Char → List Char → List Char × Nat
  | 0, _, rest => (rest, 0)
  | fuel + 1, prev, rest =>
      match m prev rest with
      | some n =>
          if 0 < n ∧ n ≤ rest.length then
            let nxt := scanSubF m repl fuel rest[n - 1]? (rest.drop n)
            (repl ++ nxt.1, nxt.2 + 1)
          else
            match rest with
            | [] => (repl, 1)
            | c :: rest' =>
                let nxt := scanSubF m repl fuel (some c) rest'
                (repl ++ c :: nxt.1, nxt.2 + 1)
      | none =>
          match rest with
          | [] => ([], 0)
          | c :: rest' =>
              let nxt := scanSubF m repl fuel (some c) rest'
              (c :: nxt.1, nxt.2)

/-- `re.sub` + `re.findall` on a whole text: scan from the start with
sufficient fuel. -/
def scanSub (m : Option Char → List Char → Option Nat) (repl : List Char)
    (l : List Char) : List Char × Nat :=
  scanSubF m repl (l.length + 1) none l

/-! ## Pattern rules and compiled rules (`redaction_shield.py`) -/

/-- One configured rule, a Python dict typed `Dict[str, str]`. A `none` field
models a dict lacking that key, whose access raises `KeyError`. -/
structure PatternRule where
  pattern : Option String
  replacement : Option String
deriving DecidableEq

/-- A compiled rule, as built by `RedactionShield._compile_patterns`: the
compiled case-insensitive matcher, the replacement, and the original
pattern source. -/
structure CompiledRule where
  pattern : Regex
  replacement : String
  original : String
deriving DecidableEq

/-- Compile one rule, `none` when the `try` body of `_compile_patterns`
raises: `KeyError` on a missing `pattern` or `replacement` key, or
`re.error` from `re.compile` (the dict literal evaluates
`pattern_config["pattern"]`, then `re.compile`, then
`pattern_config["replacement"]`, all inside the handler for
`(re.error, KeyError)`). -/
def compileRule (rule : PatternRule) : Option CompiledRule :=
  match rule.pattern with
  | none => none
  | some src =>
      match parseRegex src with
      | none => none
      | some rx =>
          match rule.replacement with
          | none => none
          | some rep => some ⟨rx, rep, src⟩

/-- `RedactionShield._compile_patterns`: rules that fail to compile are
skipped (the exception is caught and logged per rule), the rest are kept
in order. -/
def compile_patterns (rules : List PatternRule) : List CompiledRule :=
  rules.filterMap compileRule

/-- `RedactionShield._get_default_patterns`: the built-in default rule list. -/
def default_patterns : List PatternRule :=
  [ ⟨some "\\bfoo\\b", some "deployment"⟩,
    ⟨some "\\bbar\\b", some "openshift"⟩,
    ⟨some "\\bpassword\\b", some "[REDACTED]"⟩,
    ⟨some "\\bsecret\\b", some "[REDACTED]"⟩,
    ⟨some "\\bapi[_-]?key\\b", some "[REDACTED]"⟩,
    ⟨some "\\btoken\\b", some "[REDACTED]"⟩ ]

/-! ## Configuration model (`config.py`)

The application configuration is duck-typed: the resolver only probes the
optional attributes `redaction_patterns` (root) and
`shields.redaction_patterns`. An attribute is modelled as absent, as
present with a value, or as raising on access (a property whose getter
raises; `hasattr` propagates every exception class except
`AttributeError`, and a getter raising `AttributeError` behaves exactly
like an absent attribute, so `absent` covers that case too). -/

/-- A duck-typed optional attribute. -/
inductive AttrVal (α : Type) where
  | absent
  | val (v : α)
  | raises (e : ExcClass)

/-- The `source` argument of `_extract_patterns`: either not a list, or a
list of plain dicts, or a list of pydantic models whose `model_dump`
calls are modelled by their outcomes (a `model_dump` may raise). The
code only distinguishes these shapes (it tests `isinstance(source, list)`
and `isinstance(source[0], dict)`). -/
inductive ConfigSource where
  | notList
  | dicts (rules : List PatternRule)
  | models (dumps : List (Except ExcClass PatternRule))

/-- Left-to-right evaluation of `[item.model_dump() for item in source]`:
the first raising call propagates. -/
def dumpAll : List (Except ExcClass PatternRule) → Except ExcClass (List PatternRule)
  | [] => .ok []
  | .ok r :: ds => (dumpAll ds).map (fun l => r :: l)
  | .error e :: _ => .error e

/-- `_extract_patterns`: non-lists and empty lists give `None`; a list whose
first element is a dict is returned as is; otherwise every element is
`model_dump`ped, with `ValueError` caught (→ `None`) and every other
exception class propagating. -/
def extract_patterns : ConfigSource → Except ExcClass (Option (List PatternRule))
  | .notList => .ok none
  | .dicts [] => .ok none
  | .dicts (r :: rs) => .ok (some (r :: rs))
  | .models [] => .ok none
  | .models (d :: ds) =>
      match dumpAll (d :: ds) with
      | .ok rs => .ok (some rs)
      | .error e => if e = .valueError then .ok none else .error e

/-- The nested `config.shields` object. -/
structure ShieldsObj where
  redaction_patterns : AttrVal ConfigSource

/-- The application configuration object, as probed by the resolver. -/
structure PyConfig where
  redaction_patterns : AttrVal ConfigSource
  shields : AttrVal ShieldsObj

/-- The body of `load_redaction_patterns_from_config` before its
`except ValueError` handler: root-level `redaction_patterns` first
(returned if its extraction is truthy, i.e. a non-empty list), then
`config.shields.redaction_patterns`, else `None`. -/
def load_patterns_body (config : PyConfig) : Except ExcClass (Option (List PatternRule)) :=
  let nested : Except ExcClass (Option (List PatternRule)) :=
    match config.shields with
    | .absent => .ok none
    | .raises e => .error e
    | .val sh =>
        match sh.redaction_patterns with
        | .absent => .ok none
        | .raises e => .error e
        | .val src =>
            match extract_patterns src with
            | .error e => .error e
            | .ok none => .ok none
            | .ok (some ps) => if ps.isEmpty then .ok none else .ok (some ps)
  match config.redaction_patterns with
  | .absent => nested
  | .raises e => .error e
  | .val src =>
      match extract_patterns src with
      | .error e => .error e
      | .ok none => nested
      | .ok (some ps) => if ps.isEmpty then nested else .ok (some ps)

/-- `load_redaction_patterns_from_config`: the whole body runs under
`except ValueError`, which degrades to `None`; any other exception class
propagates. -/
def load_redaction_patterns_from_config (config : PyConfig) :
    Except ExcClass (Option (List PatternRule)) :=
  match load_patterns_body config with
  | .ok r => .ok r
  | .error e => if e = .valueError then .ok none else .error e

/-! ## The shield (`RedactionShield`) -/

/-- A constructed `RedactionShield`: the stored rule list and the compiled
rules. -/
structure RedactionShield where
  patterns : List PatternRule
  compiled_patterns : List CompiledRule
deriving DecidableEq

/-- `RedactionShield.__init__`: with no explicit patterns, try the
configuration loader under `except ValueError` (→ `patterns = None`);
then `patterns or self._get_default_patterns()` — so both `None` and an
empty (falsy) list fall back to the defaults — and compile. A
non-`ValueError` exception from the loader propagates to the caller. -/
def shield_init (pats : Option (List PatternRule)) (config : PyConfig) :
    Except ExcClass RedactionShield :=
  let resolved : Except ExcClass (Option (List PatternRule)) :=
    match pats with
    | some ps => .ok (some ps)
    | none =>
        match load_redaction_patterns_from_config config with
        | .ok r => .ok r
        | .error e => if e = .valueError then .ok none else .error e
  match resolved with
  | .error e => .error e
  | .ok r =>
      let patterns :=
        match r with
        | none => default_patterns
        | some ps => if ps.isEmpty then default_patterns else ps
      .ok ⟨patterns, compile_patterns patterns⟩

/-- `get_redaction_shield`: the module-level singleton `SHIELD_INSTANCE` is
threaded explicitly. A new instance is constructed (and stored) when no
instance exists yet or when explicit patterns are passed; otherwise the
stored instance is returned. -/
def get_redaction_shield (pats : Option (List PatternRule)) (config : PyConfig)
    (instanceVar : Option RedactionShield) :
    Except ExcClass (RedactionShield × Option RedactionShield) :=
  if instanceVar.isNone || pats.isSome then
    match shield_init pats config with
    | .ok s => .ok (s, some s)
    | .error e => .error e
  else
    match instanceVar with
    | some s => .ok (s, some s)
    | none => .error .otherError
    -- the `none` arm is unreachable (the guard is false only when an
    -- instance exists); it merely keeps the match total

/-! ## `redact_text` -/

/-- One iteration of the rule loop in `redact_text` (the pure path, where
the `re` calls cannot raise): `findall`, and `sub` only when there was at
least one match. -/
def redactStep (acc : List Char) (r : CompiledRule) : List Char :=
  let p := scanSub (matchLen r.pattern) r.replacement.data acc
  if 0 < p.2 then p.1 else acc

/-- The rule loop of `redact_text` over the character list. -/
def redactChars (rules : List CompiledRule) (l : List Char) : List Char :=
  rules.foldl redactStep l

/-- `RedactionShield.redact_text` (pure path): `None` propagates to `None`,
the empty string is returned unchanged, otherwise every compiled rule is
applied in order, each substitution acting on the result of the previous
one. The `conversation_id` argument only feeds logging and is omitted. -/
def redact_text (shield : RedactionShield) (text : Option String) : Option String :=
  match text with
  | none => none
  | some t => if t.isEmpty then some t else some (String.mk (redactChars shield.compiled_patterns t.data))

/-! ### `redact_text` with explicit exception flow

`pattern.findall`/`pattern.sub` run on duck-typed data (the replacement
value comes from untyped configuration), so a rule application can raise
— e.g. `TypeError` for a non-string replacement or `re.error` for a bad
replacement escape, neither of which is a `ValueError`. The application
of one rule to one text is therefore a parameter `apply1`; the pure
engine above is the instance whose applications always succeed. -/

/-- The rule loop of `redact_text` with its per-rule `try`/`except
ValueError`: a `ValueError` is caught (the rule contributes nothing), any
other exception class propagates. -/
def redact_text_go (apply1 : CompiledRule → String → Except ExcClass (String × Nat)) :
    List CompiledRule → String → Except ExcClass String
  | [], t => .ok t
  | r :: rs, t =>
      match apply1 r t with
      | .ok p => redact_text_go apply1 rs (if 0 < p.2 then p.1 else t)
      | .error e => if e = .valueError then redact_text_go apply1 rs t else .error e

/-- `RedactionShield.redact_text` with explicit exception flow. -/
def redact_text_gen (apply1 : CompiledRule → String → Except ExcClass (String × Nat))
    (rules : List CompiledRule) (text : Option String) : Except ExcClass (Option String) :=
  match text with
  | none => .ok none
  | some t =>
      if t.isEmpty then .ok (some t)
      else
        match redact_text_go apply1 rules t with
        | .ok t' => .ok (some t')
        | .error e => .error e

/-! ## `run` (batch redaction of messages) -/

/-- A message: an externally-defined object with an optional `content`
field (`none` models both a missing attribute and `content = None`; the
code also skips empty content via truthiness). Other fields play no role
in the code under verification. -/
structure Msg where
  content : Option String
deriving DecidableEq

/-- The loop body of `RedactionShield.run`: copy each message
(`_copy_message`, an external duck-typed operation that may raise,
passed as `copy1`), redact non-empty content (`redactT`, the
`self.redact_text` call, which may itself propagate a non-`ValueError`),
and collect in order. -/
def run_go (copy1 : Msg → Except ExcClass Msg)
    (redactT : Option String → Except ExcClass (Option String)) :
    List Msg → Except ExcClass (List Msg)
  | [] => .ok []
  | m :: ms => do
      let c ← copy1 m
      let c2 ←
        match m.content with
        | some s =>
            if s.isEmpty then pure c
            else do
              let r ← redactT (some s)
              pure (Msg.mk r)
        | none => pure c
      let rest ← run_go copy1 redactT ms
      pure (c2 :: rest)

/-- `RedactionShield.run`: the whole batch runs under `except ValueError`,
which falls back to returning the original message list; any other
exception class propagates. -/
def run (copy1 : Msg → Except ExcClass Msg)
    (redactT : Option String → Except ExcClass (Option String))
    (messages : List Msg) : Except ExcClass (List Msg) :=
  match run_go copy1 redactT messages with
  | .ok l => .ok l
  | .error e => if e = .valueError then .ok messages else .error e

/-! ## `redact_attachments` -/

/-- An attachment record. `content` is read with
`getattr(attachment, "content", None)`, so a missing attribute is
`none`. -/
structure Attachment where
  attachment_type : String
  content_type : String
  content : Option String
deriving DecidableEq

/-- The loop body of `redact_attachments`: redact each attachment's content
and build a fresh record with the same `attachment_type` and
`content_type`. -/
def atts_go (redactT : Option String → Except ExcClass (Option String)) :
    List Attachment → Except ExcClass (List Attachment)
  | [] => .ok []
  | a :: rest => do
      let rc ← redactT a.content
      let l ← atts_go redactT rest
      pure (Attachment.mk a.attachment_type a.content_type rc :: l)

/-- `redact_attachments`: acquire the shared shield (`acquire`, which may
raise via configuration loading), then redact every attachment; the whole
batch runs under `except Exception`, which catches every modelled
exception class and falls back to the original, unmodified list. -/
def redact_attachments (acquire : Except ExcClass Unit)
    (redactT : Option String → Except ExcClass (Option String))
    (atts : List Attachment) : List Attachment :=
  match acquire.bind (fun _ => atts_go redactT atts) with
  | .ok l => l
  | .error _ => atts

/-- The successful path of `redact_attachments` with a concrete shield and
the pure text engine. -/
def redact_attachments_pure (shield : RedactionShield) (atts : List Attachment) :
    List Attachment :=
  redact_attachments (.ok ()) (fun s => .ok (redact_text shield s)) atts

/-! ## Specification-side description of the default rules (for C1)

The claim states that the default rules perform case-insensitive
whole-word replacement. The matchers below express that property
directly — an occurrence of the keyword, compared case-insensitively,
whose ends both lie on word boundaries — with no regex machinery. -/

/-- Case-insensitive "starts with": `startsCI kw l` holds iff `l` begins
with the keyword `kw`, compared case-insensitively. -/
def startsCI : List Char → List Char → Bool
  | [], _ => true
  | _ :: _, [] => false
  | c :: k, d :: l => charCI c d && startsCI k l

/-- The character preceding the position reached after consuming `n`
characters of `l`, given the character `prev` preceding `l` itself. -/
def lastPrev (n : Nat) (prev : Option Char) (l : List Char) : Option Char :=
  match n with
  | 0 => prev
  | m + 1 => l[m]?

/-- Specification-side matcher: a whole-word, case-insensitive occurrence of
the keyword `kw` at the current position — the keyword starts here (up to
case) and both ends lie on word boundaries. -/
def wwLen (kw : List Char) (prev : Option Char) (rest : List Char) : Option Nat :=
  if boundary prev rest.head? && startsCI kw rest
      && boundary (lastPrev kw.length prev rest) rest[kw.length]? then
    some kw.length
  else none

/-- Specification-side matcher for the default `api[_-]?key` rule: a
whole-word, case-insensitive occurrence of `api_key`, `api-key` or
`apikey`, the separator forms taking precedence (the quantifier is
greedy). -/
def apiLen (prev : Option Char) (rest : List Char) : Option Nat :=
  match wwLen "api_key".data prev rest with
  | some n => some n
  | none =>
      match wwLen "api-key".data prev rest with
      | some n => some n
      | none => wwLen "apikey".data prev rest

/-- Replace every whole-word, case-insensitive occurrence of `kw` in `t`
by `repl`, scanning left to right. -/
def replaceWW (kw repl t : List Char) : List Char := (scanSub (wwLen kw) repl t).1

/-- The behaviour C1 ascribes to the default rule set: six sequential
whole-word, case-insensitive replacement passes, each acting on the
output of the previous one. -/
def specDefaultRedact (t : String) : String :=
  let l1 := replaceWW "foo".data "deployment".data t.data
  let l2 := replaceWW "bar".data "openshift".data l1
  let l3 := replaceWW "password".data "[REDACTED]".data l2
  let l4 := replaceWW "secret".data "[REDACTED]".data l3
  let l5 := (scanSub apiLen "[REDACTED]".data l4).1
  let l6 := replaceWW "token".data "[REDACTED]".data l5
  String.mk l6

/-! ## Shapes of the compiled default patterns -/

/-- A literal keyword as a regex, followed by a continuation. -/
def litsRe : List Char → Regex → Regex
  | [], cont => cont
  | c :: k, cont => .seq (.lit c) (litsRe k cont)

/-- The compiled shape of a `\b<keyword>\b` pattern. -/
def wordRe (kw : List Char) : Regex := .seq .wordB (litsRe kw (.seq .wordB .eps))

/-- The `[_-]` class of the default `api` pattern. -/
def sepCls : Regex := .cls [.single '_', .single '-']

/-- The compiled shape of `\bapi[_-]?key\b`. -/
def apiRe : Regex :=
  .seq .wordB (litsRe "api".data (.seq (.opt sepCls) (litsRe "key".data (.seq .wordB .eps))))

/-! ## Engine characterization lemmas -/

theorem startsCI_length {kw l : List Char} (h : startsCI kw l = true) :
    kw.length ≤ l.length := by
  induction kw generalizing l with
  | nil => simp
  | cons c k ih =>
      cases l with
      | nil => simp [startsCI] at h
      | cons d l' =>
          simp only [startsCI, Bool.and_eq_true] at h
          exact Nat.succ_le_succ (ih h.2)

theorem startsCI_append (k1 k2 l : List Char) :
    startsCI (k1 ++ k2) l = (startsCI k1 l && startsCI k2 (l.drop k1.length)) := by
  induction k1 generalizing l with
  | nil => simp [startsCI]
  | cons c k ih =>
      cases l with
      | nil => simp [startsCI]
      | cons d l' => simp [startsCI, ih, Bool.and_assoc]

theorem lastPrev_cons (n : Nat) (prev : Option Char) (d : Char) (l : List Char) :
    lastPrev (n + 1) prev (d :: l) = lastPrev n (some d) l := by
  cases n <;> simp [lastPrev]

theorem mtch_litsRe (kw : List Char) (cont : Regex)
    (k : Option Char × List Char → Option (Option Char × List Char))
    (prev : Option Char) (rest : List Char) :
    mtch (litsRe kw cont) (prev, rest) k =
      if startsCI kw rest then
        mtch cont (lastPrev kw.length prev rest, rest.drop kw.length) k
      else none := by
  induction kw generalizing prev rest with
  | nil => simp [litsRe, startsCI, lastPrev]
  | cons c kw' ih =>
      cases rest with
      | nil => simp [litsRe, mtch, startsCI]
      | cons d rest' =>
          by_cases hc : charCI c d
          · simp [litsRe, mtch, hc, ih, startsCI, lastPrev_cons]
          · simp [litsRe, mtch, hc, startsCI]

theorem mtch_wordRe (kw : List Char) (prev : Option Char) (rest : List Char)
    (k : Option Char × List Char → Option (Option Char × List Char)) :
    mtch (wordRe kw) (prev, rest) k =
      if boundary prev rest.head? && startsCI kw rest
          && boundary (lastPrev kw.length prev rest) rest[kw.length]? then
        k (lastPrev kw.length prev rest, rest.drop kw.length)
      else none := by
  unfold wordRe
  by_cases hb : boundary prev rest.head?
  · simp only [mtch, hb, if_true, mtch_litsRe]
    by_cases hs : startsCI kw rest
    · simp only [hs, if_true, mtch, List.head?_drop]
      by_cases hb2 : boundary (lastPrev kw.length prev rest) rest[kw.length]?
      · simp [hb, hs, hb2, mtch]
      · simp [hb, hs, hb2]
    · simp [hs]
  · simp [mtch, hb]

theorem sep_not_k {c : Char} (h : (charCI '_' c || charCI '-' c) = true) :
    charCI 'k' c = false := by
  simp only [charCI, Bool.or_eq_true, decide_eq_true_eq] at h
  simp only [charCI, decide_eq_false_iff_not]
  intro hk
  rcases h with h | h
  · rw [← h] at hk
    exact absurd hk (by decide)
  · rw [← h] at hk
    exact absurd hk (by decide)

theorem matchLen_wordRe (kw : List Char) (prev : Option Char) (rest : List Char) :
    matchLen (wordRe kw) prev rest = wwLen kw prev rest := by
  unfold matchLen wwLen
  rw [mtch_wordRe]
  by_cases hc : boundary prev rest.head? && startsCI kw rest
      && boundary (lastPrev kw.length prev rest) rest[kw.length]?
  · have hs : startsCI kw rest = true := by
      rcases Bool.and_eq_true_iff.mp (Bool.and_eq_true_iff.mp hc).1 with ⟨_, h2⟩
      exact h2
    have hlen : kw.length ≤ rest.length := startsCI_length hs
    simp only [hc, if_true, List.length_drop]
    congr 1
    omega
  · simp [hc]

theorem mtch_seqWordB (r : Regex) (prev : Option Char) (rest : List Char)
    (k : Option Char × List Char → Option (Option Char × List Char)) :
    mtch (.seq .wordB r) (prev, rest) k =
      if boundary prev rest.head? then mtch r (prev, rest) k else none := by
  rcases hb : boundary prev rest.head? with _ | _ <;> simp [mtch, hb]

theorem mtch_seqOpt (r1 r2 : Regex) (st : Option Char × List Char)
    (k : Option Char × List Char → Option (Option Char × List Char)) :
    mtch (.seq (.opt r1) r2) st k =
      match mtch r1 st (fun st1 => mtch r2 st1 k) with
      | some res => some res
      | none => mtch r2 st k := by
  simp [mtch]

theorem mtch_sepCls_nil (p : Option Char)
    (k : Option Char × List Char → Option (Option Char × List Char)) :
    mtch sepCls (p, []) k = none := by
  simp [mtch, sepCls]

theorem mtch_sepCls_cons (p : Option Char) (c : Char) (l : List Char)
    (k : Option Char × List Char → Option (Option Char × List Char)) :
    mtch sepCls (p, c :: l) k =
      if charCI '_' c || charCI '-' c then k (some c, l) else none := by
  simp [mtch, sepCls, clsItemMatch]

theorem mtch_wordBEps (p : Option Char) (l : List Char) :
    mtch (Regex.seq .wordB .eps) (p, l) (fun st => some st) =
      if boundary p l.head? then some (p, l) else none := by
  rcases hb : boundary p l.head? with _ | _ <;> simp [mtch, hb]

theorem matchLen_apiRe (prev : Option Char) (rest : List Char) :
    matchLen apiRe prev rest = apiLen prev rest := by
  have e1 : ("api".data : List Char) = ['a', 'p', 'i'] := rfl
  have e2 : ("key".data : List Char) = ['k', 'e', 'y'] := rfl
  have e3 : ("api_key".data : List Char) = ['a', 'p', 'i', '_', 'k', 'e', 'y'] := rfl
  have e4 : ("api-key".data : List Char) = ['a', 'p', 'i', '-', 'k', 'e', 'y'] := rfl
  have e5 : ("apikey".data : List Char) = ['a', 'p', 'i', 'k', 'e', 'y'] := rfl
  have hdecu : ∀ l : List Char, startsCI ['a', 'p', 'i', '_', 'k', 'e', 'y'] l
      = (startsCI ['a', 'p', 'i'] l && startsCI ['_', 'k', 'e', 'y'] (l.drop 3)) := by
    intro l
    simpa using startsCI_append ['a', 'p', 'i'] ['_', 'k', 'e', 'y'] l
  have hdecd : ∀ l : List Char, startsCI ['a', 'p', 'i', '-', 'k', 'e', 'y'] l
      = (startsCI ['a', 'p', 'i'] l && startsCI ['-', 'k', 'e', 'y'] (l.drop 3)) := by
    intro l
    simpa using startsCI_append ['a', 'p', 'i'] ['-', 'k', 'e', 'y'] l
  have hdec6 : ∀ l : List Char, startsCI ['a', 'p', 'i', 'k', 'e', 'y'] l
      = (startsCI ['a', 'p', 'i'] l && startsCI ['k', 'e', 'y'] (l.drop 3)) := by
    intro l
    simpa using startsCI_append ['a', 'p', 'i'] ['k', 'e', 'y'] l
  unfold matchLen apiRe apiLen
  simp only [e1, e2, e3, e4, e5]
  rw [mtch_seqWordB, mtch_litsRe]
  rcases hb : boundary prev rest.head? with _ | _
  case false => simp [hb, wwLen]
  case true =>
    rw [if_pos rfl]
    rcases hA : startsCI ['a', 'p', 'i'] rest with _ | _
    case false => simp [hA, hb, wwLen, hdecu, hdecd, hdec6]
    case true =>
      rw [if_pos rfl, mtch_seqOpt]
      have l3 : (['a', 'p', 'i'] : List Char).length = 3 := rfl
      rw [l3]
      rcases hr3 : rest.drop 3 with _ | ⟨c, r4⟩
      case nil =>
        rw [mtch_sepCls_nil, mtch_litsRe]
        simp [startsCI, hb, hA, wwLen, hdecu, hdecd, hdec6, hr3]
      case cons =>
        have hlen4 : rest.length = r4.length + 4 := by
          have hld := List.length_drop 3 rest
          rw [hr3] at hld
          have h3 : 3 ≤ rest.length := by
            by_contra hlt
            push_neg at hlt
            rw [List.drop_eq_nil_of_le (by omega)] at hr3
            exact absurd hr3 (by simp)
          simp at hld
          omega
        have h5 : rest[5]? = r4[1]? := by
          have hx := List.getElem?_drop rest 3 2
          rw [hr3] at hx
          simpa using hx.symm
        have h6 : rest[6]? = r4[2]? := by
          have hx := List.getElem?_drop rest 3 3
          rw [hr3] at hx
          simpa using hx.symm
        have h7 : rest[7]? = r4[3]? := by
          have hx := List.getElem?_drop rest 3 4
          rw [hr3] at hx
          simpa using hx.symm
        rw [mtch_sepCls_cons]
        rcases hsep : (charCI '_' c || charCI '-' c) with _ | _
        case true =>
          have hknot : charCI 'k' c = false := sep_not_k hsep
          rw [if_pos rfl]
          rw [mtch_litsRe]
          rcases hK : startsCI ['k', 'e', 'y'] r4 with _ | _
          case false =>
            rw [if_neg (by simp)]
            rw [mtch_litsRe]
            simp [startsCI, hknot, hK, hb, hA, wwLen, hdecu, hdecd, hdec6, hr3]
          case true =>
            have hkr : 3 ≤ r4.length := startsCI_length hK
            rw [if_pos rfl]
            have lke : (['k', 'e', 'y'] : List Char).length = 3 := rfl
            rw [lke]
            have hlp : lastPrev 3 (some c) r4 = r4[2]? := rfl
            rw [mtch_wordBEps, hlp]
            simp only [List.head?_drop]
            rcases hb2 : boundary r4[2]? r4[3]? with _ | _
            case false =>
              rw [if_neg (by simp)]
              rw [mtch_litsRe]
              simp [startsCI, hknot, hb, hA, wwLen, hdecu, hdecd, hdec6, hr3,
                lastPrev, h6, h7, hb2]
            case true =>
              rw [if_pos rfl]
              rcases hu : charCI '_' c with _ | _
              case true =>
                simp [startsCI, hb, hA, hu, hK, wwLen, hdecu, hr3, lastPrev,
                  h6, h7, hb2]
                omega
              case false =>
                have hd : charCI '-' c = true := by
                  rcases hx : charCI '-' c with _ | _
                  · rw [hu, hx] at hsep
                    exact absurd hsep (by simp)
                  · rfl
                simp [startsCI, hb, hA, hu, hd, hK, wwLen, hdecu, hdecd, hr3,
                  lastPrev, h6, h7, hb2]
                omega
        case false =>
          have hu : charCI '_' c = false := by
            rcases hx : charCI '_' c with _ | _
            · rfl
            · rw [hx] at hsep
              exact absurd hsep (by simp)
          have hd : charCI '-' c = false := by
            rcases hx : charCI '-' c with _ | _
            · rfl
            · rw [hx] at hsep
              exact absurd hsep (by simp)
          rw [if_neg (by simp)]
          rw [mtch_litsRe]
          rcases hK : startsCI ['k', 'e', 'y'] (c :: r4) with _ | _
          case false =>
            simp [startsCI, hb, hA, hu, hd, hK, wwLen, hdecu, hdecd, hdec6, hr3,
              lastPrev, h5, h6]
          case true =>
            have hkr : 3 ≤ r4.length + 1 := by
              have hx := startsCI_length hK
              simpa using hx
            rw [if_pos rfl]
            have lke : (['k', 'e', 'y'] : List Char).length = 3 := rfl
            rw [lke]
            have hlp : ∀ p : Option Char, lastPrev 3 p (c :: r4) = r4[1]? := fun p => by simp [lastPrev]
            rw [mtch_wordBEps, hlp]
            simp only [List.head?_drop]
            have hg3 : (c :: r4)[3]? = r4[2]? := by simp
            rw [hg3]
            rcases hb2 : boundary r4[1]? r4[2]? with _ | _
            case false =>
              rw [if_neg (by simp)]
              simp [startsCI, hb, hA, hu, hd, hK, wwLen, hdecu, hdecd, hdec6, hr3,
                lastPrev, h5, h6, hb2]
            case true =>
              rw [if_pos rfl]
              simp [startsCI, hb, hA, hu, hd, hK, wwLen, hdecu, hdecd, hdec6, hr3,
                lastPrev, h5, h6, hb2]
              omega
/-! ## Scan lemmas -/

theorem scanSubF_snd_zero (m : Option Char → List Char → Option Nat) (repl : List Char) :
    ∀ (fuel : Nat) (prev : Option Char) (l : List Char),
      (scanSubF m repl fuel prev l).2 = 0 → (scanSubF m repl fuel prev l).1 = l := by
  intro fuel
  induction fuel with
  | zero => intro prev l _; rfl
  | succ fuel ih =>
      intro prev l h
      rcases hm : m prev l with _ | n
      · rcases l with _ | ⟨c, l'⟩
        · simp [scanSubF, hm]
        · simp only [scanSubF, hm] at h ⊢
          have hx := ih (some c) l' h
          simp [hx]
      · exfalso
        rcases l with _ | ⟨c, l'⟩ <;>
        · simp only [scanSubF, hm] at h
          split at h <;> simp at h

/-- `redactStep`'s `findall` guard is immaterial: when no rule matched, the
substitution leaves the text unchanged anyway. -/
theorem redactStep_eq (r : CompiledRule) (acc : List Char) :
    redactStep acc r = (scanSub (matchLen r.pattern) r.replacement.data acc).1 := by
  unfold redactStep scanSub
  rcases hn : (scanSubF (matchLen r.pattern) r.replacement.data (acc.length + 1) none acc).2
      with _ | n
  · have hz := scanSubF_snd_zero (matchLen r.pattern) r.replacement.data
      (acc.length + 1) none acc hn
    simp [scanSub, hn] at hz ⊢
    exact hz.symm
  · simp [scanSub, hn]

/-! ## The compiled default rules -/

/-- The shield built from the built-in default rule set (what
`RedactionShield()` constructs when the configuration supplies no
patterns). -/
def defaultShield : RedactionShield :=
  ⟨default_patterns, compile_patterns default_patterns⟩

/-- Compiling the six default pattern sources yields exactly the six
whole-word matchers. -/
theorem default_compiled_eq :
    compile_patterns default_patterns =
      [ ⟨wordRe "foo".data, "deployment", "\\bfoo\\b"⟩,
        ⟨wordRe "bar".data, "openshift", "\\bbar\\b"⟩,
        ⟨wordRe "password".data, "[REDACTED]", "\\bpassword\\b"⟩,
        ⟨wordRe "secret".data, "[REDACTED]", "\\bsecret\\b"⟩,
        ⟨apiRe, "[REDACTED]", "\\bapi[_-]?key\\b"⟩,
        ⟨wordRe "token".data, "[REDACTED]", "\\btoken\\b"⟩ ] := by
  decide

theorem matchLen_wordRe_fun (kw : List Char) : matchLen (wordRe kw) = wwLen kw := by
  funext prev rest
  exact matchLen_wordRe kw prev rest

theorem matchLen_apiRe_fun : matchLen apiRe = apiLen := by
  funext prev rest
  exact matchLen_apiRe prev rest

/-- `redact_text` with the default rule set is exactly the six sequential
whole-word replacement passes. -/
theorem redact_default_eq_spec (t : String) :
    redact_text defaultShield (some t) = some (specDefaultRedact t) := by
  rcases he : t.isEmpty with _ | _
  case false =>
    simp only [redact_text, defaultShield, he]
    rw [if_neg (by simp)]
    unfold specDefaultRedact replaceWW
    simp only [default_compiled_eq, redactChars, List.foldl_cons, List.foldl_nil,
      redactStep_eq, matchLen_wordRe_fun, matchLen_apiRe_fun]
  case true =>
    have ht : t = "" := (String.isEmpty_iff t).mp he
    subst ht
    decide

/-! ## Shared helper lemmas for the claims -/

/-- A configuration exposing neither pattern attribute. -/
def emptyConfig : PyConfig := ⟨.absent, .absent⟩

theorem atts_go_ok (f : Option String → Option String) (atts : List Attachment) :
    atts_go (fun s => .ok (f s)) atts
      = .ok (atts.map fun a => ⟨a.attachment_type, a.content_type, f a.content⟩) := by
  induction atts with
  | nil => rfl
  | cons a rest ih => simp [atts_go, ih, Bind.bind, Except.bind, Pure.pure, Except.pure]

theorem redact_attachments_ok (f : Option String → Option String) (atts : List Attachment) :
    redact_attachments (.ok ()) (fun s => .ok (f s)) atts
      = atts.map fun a => ⟨a.attachment_type, a.content_type, f a.content⟩ := by
  unfold redact_attachments
  simp [Except.bind, atts_go_ok]


/-- Constructing a shield with no explicit patterns against a configuration
that supplies none yields exactly the default shield. -/
theorem default_shield_init : shield_init none emptyConfig = .ok defaultShield := rfl

/-! ## Behavioural checks mirroring the repository's unit tests -/

theorem redact_example_basic :
    redact_text defaultShield (some "Deploy foo app") = some "Deploy deployment app" := by
  decide

theorem redact_example_multi :
    redact_text defaultShield (some "Deploy foo to bar with password and secret")
      = some "Deploy deployment to openshift with [REDACTED] and [REDACTED]" := by
  decide

theorem redact_example_clean :
    redact_text defaultShield (some "Clean sentence without keywords")
      = some "Clean sentence without keywords" := by
  decide

theorem redact_example_api_forms :
    redact_text defaultShield (some "use api_key or apikey or api-key now")
      = some "use [REDACTED] or [REDACTED] or [REDACTED] now" := by
  decide

theorem redact_example_no_overlap :
    redact_text defaultShield (some "foofoo") = some "foofoo" := by
  decide

theorem redact_example_custom :
    (shield_init (some [⟨some "\\btest\\b", some "TESTED"⟩,
        ⟨some "\\bsample\\b", some "EXAMPLE"⟩]) emptyConfig).map
        (fun s => redact_text s (some "test sample"))
      = .ok (some "TESTED EXAMPLE") := rfl

/-! ## The claims -/

/-- C1: with the built-in default rule set, `redact_text` replaces every
whole-word occurrence of each default keyword, matching case-insensitively,
and leaves occurrences that are substrings of longer words untouched: on
every input text it coincides with the six sequential whole-word
case-insensitive replacement passes of `specDefaultRedact`; in particular
`"food foobar foo"` maps to `"food foobar deployment"`, and redacting
`"FOO and PASSWORD"` yields a string containing `"deployment"` and
`"[REDACTED]"`. -/
theorem claim_c1_default_whole_word :
    (∀ t : String, redact_text defaultShield (some t) = some (specDefaultRedact t))
      ∧ redact_text defaultShield (some "food foobar foo") = some "food foobar deployment"
      ∧ redact_text defaultShield (some "FOO and PASSWORD") = some "deployment and [REDACTED]"
      ∧ ("deployment".data : List Char) <:+: "deployment and [REDACTED]".data
      ∧ ("[REDACTED]".data : List Char) <:+: "deployment and [REDACTED]".data := by
  exact ⟨redact_default_eq_spec, by decide, by decide, by decide, by decide⟩

/-- C2 counterexample: the empty list is a non-null rule list, yet the
constructed shield stores the built-in defaults, not the empty list that was
passed (`patterns or self._get_default_patterns()` treats `[]` as falsy). -/
theorem claim_c2_counterexample :
    (shield_init (some []) emptyConfig).map RedactionShield.patterns
        = .ok default_patterns
      ∧ default_patterns ≠ ([] : List PatternRule) := by
  exact ⟨rfl, by decide⟩

/-- C2 (amended): for every non-null, non-empty list of pattern rules passed
explicitly to the constructor or to the shared-instance accessor,
configuration is bypassed entirely (the result does not depend on the
configuration object) and the stored rule list is exactly the passed list;
a non-null empty list also bypasses configuration, but its stored rule list
falls back to the built-in defaults. -/
theorem claim_c2_amended :
    ∀ ps : List PatternRule, ps ≠ [] →
      (∀ config : PyConfig, ∃ s : RedactionShield,
          shield_init (some ps) config = .ok s ∧ s.patterns = ps)
      ∧ (∀ (config : PyConfig) (instanceVar : Option RedactionShield),
          ∃ s : RedactionShield,
            get_redaction_shield (some ps) config instanceVar = .ok (s, some s)
              ∧ s.patterns = ps)
      ∧ (∀ c1 c2 : PyConfig, shield_init (some ps) c1 = shield_init (some ps) c2) := by
  intro ps hps
  have hE : ps.isEmpty = false := by
    cases ps with
    | nil => exact absurd rfl hps
    | cons a l => rfl
  refine ⟨?_, ?_, ?_⟩
  · intro config
    exact ⟨⟨ps, compile_patterns ps⟩, by simp [shield_init, hE], rfl⟩
  · intro config instanceVar
    exact ⟨⟨ps, compile_patterns ps⟩,
      by simp [get_redaction_shield, shield_init, hE], rfl⟩
  · intro c1 c2
    rfl

/-- C2 witness: instantiating the amended claim at a concrete one-rule list. -/
theorem claim_c2_amended_witness :
    ([⟨some "\\babc\\b", some "XYZ"⟩] : List PatternRule) ≠ []
      ∧ ∃ s : RedactionShield,
          shield_init (some [⟨some "\\babc\\b", some "XYZ"⟩]) emptyConfig = .ok s
            ∧ s.patterns = [⟨some "\\babc\\b", some "XYZ"⟩] := by
  refine ⟨by simp, ?_⟩
  exact (claim_c2_amended [⟨some "\\babc\\b", some "XYZ"⟩] (by simp)).1 emptyConfig

/-- C3: constructing a shield from an explicit rule list never raises,
whatever the list contains: construction succeeds and the compiled rules are
exactly the rules that compile (invalid patterns and rules with missing
fields are dropped); in particular a list with one invalid and one valid
entry yields exactly one compiled rule. -/
theorem claim_c3_construction_total :
    (∀ (ps : List PatternRule) (config : PyConfig),
        ∃ s : RedactionShield, shield_init (some ps) config = .ok s
          ∧ s.compiled_patterns = s.patterns.filterMap compileRule)
      ∧ (compile_patterns
          [⟨some "[invalid", some "oops"⟩, ⟨some "\\bvalid\\b", some "ok"⟩]).length = 1 := by
  constructor
  · intro ps config
    exact ⟨⟨if ps.isEmpty then default_patterns else ps,
      compile_patterns (if ps.isEmpty then default_patterns else ps)⟩, rfl, rfl⟩
  · decide

/-- C10: `redact_text` returns null exactly on null input, and returns the
empty string unchanged without invoking any rule (the result does not depend
on the rule list, nor — in the exception-aware model — on how rules would
behave); null and empty-string are distinct cases. -/
theorem claim_c10_null_and_empty :
    (∀ (shield : RedactionShield) (t : Option String),
        redact_text shield t = none ↔ t = none)
      ∧ (∀ shield : RedactionShield, redact_text shield (some "") = some "")
      ∧ (∀ (apply1 : CompiledRule → String → Except ExcClass (String × Nat))
          (rules : List CompiledRule), redact_text_gen apply1 rules none = .ok none)
      ∧ (∀ (apply1 : CompiledRule → String → Except ExcClass (String × Nat))
          (rules : List CompiledRule),
          redact_text_gen apply1 rules (some "") = .ok (some ""))
      ∧ (none : Option String) ≠ some "" := by
  refine ⟨?_, fun _ => rfl, fun _ _ => rfl, fun _ _ => rfl, by simp⟩
  intro shield t
  constructor
  · intro h
    rcases t with _ | s
    · rfl
    · exfalso
      rcases he : s.isEmpty with _ | _ <;> simp [redact_text, he] at h
  · intro h
    subst h
    rfl

/-- C4 counterexample: a rule application failing with a non-`ValueError`
exception class (e.g. `TypeError` from a non-string replacement value)
propagates out of `redact_text` instead of being caught — the per-rule
handler catches only `ValueError`. -/
theorem claim_c4_counterexample :
    redact_text_gen (fun _ _ => .error .otherError)
        [⟨wordRe "foo".data, "deployment", "\\bfoo\\b"⟩] (some "x")
      = .error .otherError := rfl

/-- C4 (amended): a `ValueError` raised while applying a single compiled
rule is caught, that rule contributes zero replacements for the call and
processing continues with the next rule; when every per-rule failure is a
`ValueError` the call always returns a result — but exceptions of any other
class propagate out of `redact_text`. -/
theorem claim_c4_amended :
    (∀ (apply1 : CompiledRule → String → Except ExcClass (String × Nat))
        (rules : List CompiledRule) (r : CompiledRule) (t : String),
        apply1 r t = .error .valueError →
          redact_text_gen apply1 (r :: rules) (some t)
            = redact_text_gen apply1 rules (some t))
      ∧ (∀ apply1 : CompiledRule → String → Except ExcClass (String × Nat),
          (∀ (r : CompiledRule) (t : String), apply1 r t ≠ .error .otherError) →
          ∀ (rules : List CompiledRule) (text : Option String),
            ∃ res, redact_text_gen apply1 rules text = .ok res) := by
  constructor
  · intro apply1 rules r t h
    rcases he : t.isEmpty with _ | _
    · simp [redact_text_gen, he, redact_text_go, h]
    · simp [redact_text_gen, he]
  · intro apply1 hA rules text
    rcases text with _ | t
    · exact ⟨none, rfl⟩
    · rcases he : t.isEmpty with _ | _
      case true => exact ⟨some t, by simp [redact_text_gen, he]⟩
      case false =>
        have hgo : ∀ (rs : List CompiledRule) (u : String),
            ∃ u', redact_text_go apply1 rs u = .ok u' := by
          intro rs
          induction rs with
          | nil => exact fun u => ⟨u, rfl⟩
          | cons r rs ih =>
              intro u
              rcases ha : apply1 r u with e | p
              · have he' : e = .valueError := by
                  rcases e with _ | _
                  · rfl
                  · exact absurd ha (hA r u)
                subst he'
                simpa [redact_text_go, ha] using ih u
              · simpa [redact_text_go, ha] using ih (if 0 < p.2 then p.1 else u)
        rcases hgo rules t with ⟨t', ht⟩
        exact ⟨some t', by simp [redact_text_gen, he, ht]⟩

/-- C4 witness: instantiating the amended claim with a rule whose application
raises `ValueError`. -/
theorem claim_c4_amended_witness :
    redact_text_gen (fun _ _ => .error .valueError)
        [⟨wordRe "foo".data, "deployment", "\\bfoo\\b"⟩] (some "x")
      = redact_text_gen (fun _ _ => .error .valueError) [] (some "x")
      ∧ ∃ res, redact_text_gen (fun _ _ => .error .valueError)
          [⟨wordRe "foo".data, "deployment", "\\bfoo\\b"⟩] (some "x") = .ok res := by
  constructor
  · exact claim_c4_amended.1 _ [] _ "x" rfl
  · exact claim_c4_amended.2 _ (fun r t => by simp) _ (some "x")

/-- C5 counterexample: a non-`ValueError` exception during the message batch
(here from the message-copy operation) propagates out of `run` instead of
being caught and turned into the original list — `run` catches only
`ValueError`. -/
theorem claim_c5_counterexample :
    run (fun _ => .error .otherError) (fun s => .ok s) [⟨some "hello"⟩]
      = .error .otherError := rfl

/-- C5 (amended): a `ValueError` occurring anywhere in the message batch is
caught and `run` returns the original, unredacted input list unchanged; on a
successful batch the redacted list is returned; `run` never propagates a
`ValueError` — but exceptions of any other class propagate. -/
theorem claim_c5_amended :
    ∀ (copy1 : Msg → Except ExcClass Msg)
      (redactT : Option String → Except ExcClass (Option String))
      (messages : List Msg),
      (run_go copy1 redactT messages = .error .valueError →
        run copy1 redactT messages = .ok messages)
      ∧ (∀ l, run_go copy1 redactT messages = .ok l →
          run copy1 redactT messages = .ok l)
      ∧ run copy1 redactT messages ≠ .error .valueError := by
  intro copy1 redactT messages
  refine ⟨?_, ?_, ?_⟩
  · intro h
    simp [run, h]
  · intro l h
    simp [run, h]
  · intro h
    unfold run at h
    rcases hgo : run_go copy1 redactT messages with e | l
    · rw [hgo] at h
      rcases e with _ | _ <;> simp at h
    · rw [hgo] at h
      simp at h

/-- C5 witness: instantiating the amended claim where the copy operation
raises `ValueError` on a one-message batch. -/
theorem claim_c5_amended_witness :
    run_go (fun _ => .error .valueError) (fun s => .ok s) [⟨some "hello"⟩]
        = .error .valueError
      ∧ run (fun _ => .error .valueError) (fun s => .ok s) [⟨some "hello"⟩]
        = .ok [⟨some "hello"⟩] := by
  refine ⟨rfl, ?_⟩
  exact (claim_c5_amended (fun _ => .error .valueError) (fun s => .ok s) [⟨some "hello"⟩]).1 rfl

/-- C6 counterexample: a non-`ValueError` exception while normalizing
configuration entries (a `model_dump` raising e.g. `TypeError`) propagates
out of the resolver instead of degrading to null — the resolver catches only
`ValueError`. -/
theorem claim_c6_counterexample :
    load_redaction_patterns_from_config ⟨.val (.models [.error .otherError]), .absent⟩
      = .error .otherError := rfl

/-- C6 (amended): a `ValueError` raised while reading or normalizing
configuration is caught and the resolver returns null; the resolver never
propagates a `ValueError` (every outcome is null, a pattern list, or a
non-`ValueError` exception) — but exceptions of other classes propagate. -/
theorem claim_c6_amended :
    ∀ config : PyConfig,
      (load_patterns_body config = .error .valueError →
        load_redaction_patterns_from_config config = .ok none)
      ∧ ((load_redaction_patterns_from_config config = .ok none)
          ∨ (∃ ps, load_redaction_patterns_from_config config = .ok (some ps))
          ∨ (load_redaction_patterns_from_config config = .error .otherError)) := by
  intro config
  constructor
  · intro h
    simp [load_redaction_patterns_from_config, h]
  · unfold load_redaction_patterns_from_config
    rcases h : load_patterns_body config with e | r
    · rcases e with _ | _
      · left
        simp
      · right; right
        simp
    · rcases r with _ | ps
      · left
        simp
      · right; left
        exact ⟨ps, by simp⟩

/-- C6 witness: a configuration whose root pattern property raises
`ValueError` (propagated by `hasattr`) is caught and resolved to null. -/
theorem claim_c6_amended_witness :
    load_patterns_body ⟨.raises .valueError, .absent⟩ = .error .valueError
      ∧ load_redaction_patterns_from_config ⟨.raises .valueError, .absent⟩ = .ok none := by
  refine ⟨rfl, ?_⟩
  exact (claim_c6_amended ⟨.raises .valueError, .absent⟩).1 rfl

/-- C7: on a fully successful batch, `redact_attachments` returns one
redacted attachment per input attachment; if any exception (of any modelled
class) occurs anywhere in the batch — acquiring the shared shield included —
it is caught and the original, unmodified attachment list is returned. -/
theorem claim_c7_attachments_fail_open :
    (∀ (f : Option String → Option String) (atts : List Attachment),
        redact_attachments (.ok ()) (fun s => .ok (f s)) atts
          = atts.map fun a => ⟨a.attachment_type, a.content_type, f a.content⟩)
      ∧ (∀ (acquire : Except ExcClass Unit)
          (redactT : Option String → Except ExcClass (Option String))
          (atts : List Attachment) (e : ExcClass),
          acquire.bind (fun _ => atts_go redactT atts) = .error e →
            redact_attachments acquire redactT atts = atts) := by
  constructor
  · exact redact_attachments_ok
  · intro acquire redactT atts e h
    unfold redact_attachments
    rw [h]

/-- C7 witness: a concrete successful batch, and a concrete batch in which
the text routine raises (of either exception class), which returns the
original list. -/
theorem claim_c7_witness :
    redact_attachments (.ok ()) (fun s => .ok s)
        [⟨"log", "text/plain", some "x"⟩]
      = [⟨"log", "text/plain", some "x"⟩]
      ∧ redact_attachments (.ok ()) (fun _ => .error .otherError)
          [⟨"log", "text/plain", some "x"⟩]
        = [⟨"log", "text/plain", some "x"⟩] := by
  constructor
  · have h := claim_c7_attachments_fail_open.1 (fun s => s) [⟨"log", "text/plain", some "x"⟩]
    simpa using h
  · exact claim_c7_attachments_fail_open.2 (.ok ()) (fun _ => .error .otherError)
      [⟨"log", "text/plain", some "x"⟩] .otherError rfl

/-- C9: on the successful path, attachment redaction builds a new record per
input attachment, copying `attachment_type` and `content_type` unchanged and
replacing only `content` with its redacted value (the input list itself is a
pure value and is never mutated). -/
theorem claim_c9_attachment_frame :
    ∀ (shield : RedactionShield) (atts : List Attachment) (i : Nat),
      i < atts.length →
      (redact_attachments_pure shield atts).length = atts.length
      ∧ (redact_attachments_pure shield atts)[i]?.map Attachment.attachment_type
          = atts[i]?.map Attachment.attachment_type
      ∧ (redact_attachments_pure shield atts)[i]?.map Attachment.content_type
          = atts[i]?.map Attachment.content_type
      ∧ (redact_attachments_pure shield atts)[i]?.map Attachment.content
          = atts[i]?.map fun a => redact_text shield a.content := by
  intro shield atts i hi
  have hmap : redact_attachments_pure shield atts
      = atts.map fun a => ⟨a.attachment_type, a.content_type, redact_text shield a.content⟩ :=
    redact_attachments_ok (fun s => redact_text shield s) atts
  refine ⟨by simp [hmap], ?_, ?_, ?_⟩ <;>
  · rw [hmap]
    cases hx : atts[i]? <;> simp [List.getElem?_map, hx]

/-- C9 witness: instantiating the frame property on a concrete attachment
whose content contains default keywords. -/
theorem claim_c9_witness :
    0 < ([⟨"log", "text/plain", some "foo with password"⟩] : List Attachment).length
      ∧ (redact_attachments_pure defaultShield
            [⟨"log", "text/plain", some "foo with password"⟩])[0]?.map Attachment.content
          = some (some "deployment with [REDACTED]") := by
  refine ⟨by simp, ?_⟩
  have h := claim_c9_attachment_frame defaultShield
    [⟨"log", "text/plain", some "foo with password"⟩] 0 (by simp)
  rw [h.2.2.2]
  decide

/-- C8: pattern resolution checks the root-level `redaction_patterns` first
and returns its extracted entries when present and non-empty; otherwise it
checks `config.shields.redaction_patterns` the same way; otherwise it
returns null (so that the caller falls back to the built-in defaults). -/
theorem claim_c8_pattern_resolution_order :
    ∀ config : PyConfig,
      (∀ src ps, config.redaction_patterns = .val src →
          extract_patterns src = .ok (some ps) → ps ≠ [] →
          load_redaction_patterns_from_config config = .ok (some ps))
      ∧ (∀ sh src ps,
          (config.redaction_patterns = .absent ∨
            ∃ src0, config.redaction_patterns = .val src0
              ∧ extract_patterns src0 = .ok none) →
          config.shields = .val sh → sh.redaction_patterns = .val src →
          extract_patterns src = .ok (some ps) → ps ≠ [] →
          load_redaction_patterns_from_config config = .ok (some ps))
      ∧ ((config.redaction_patterns = .absent ∨
            ∃ src0, config.redaction_patterns = .val src0
              ∧ extract_patterns src0 = .ok none) →
          (config.shields = .absent ∨
            ∃ sh, config.shields = .val sh ∧
              (sh.redaction_patterns = .absent ∨
                ∃ src1, sh.redaction_patterns = .val src1
                  ∧ extract_patterns src1 = .ok none)) →
          load_redaction_patterns_from_config config = .ok none) := by
  intro config
  refine ⟨?_, ?_, ?_⟩
  · intro src ps hroot hex hne
    have hE : ps.isEmpty = false := by
      cases ps with
      | nil => exact absurd rfl hne
      | cons a l => rfl
    simp [load_redaction_patterns_from_config, load_patterns_body, hroot, hex, hE]
  · intro sh src ps hrootnone hsh hnested hex hne
    have hE : ps.isEmpty = false := by
      cases ps with
      | nil => exact absurd rfl hne
      | cons a l => rfl
    rcases hrootnone with habs | ⟨src0, hval, hnone⟩
    · simp [load_redaction_patterns_from_config, load_patterns_body, habs, hsh,
        hnested, hex, hE]
    · simp [load_redaction_patterns_from_config, load_patterns_body, hval, hnone,
        hsh, hnested, hex, hE]
  · intro hrootnone hnestednone
    rcases hrootnone with habs | ⟨src0, hval, hnone⟩
    · rcases hnestednone with habs2 | ⟨sh, hval2, hinner⟩
      · simp [load_redaction_patterns_from_config, load_patterns_body, habs, habs2]
      · rcases hinner with habs3 | ⟨src1, hval3, hnone3⟩
        · simp [load_redaction_patterns_from_config, load_patterns_body, habs,
            hval2, habs3]
        · simp [load_redaction_patterns_from_config, load_patterns_body, habs,
            hval2, hval3, hnone3]
    · rcases hnestednone with habs2 | ⟨sh, hval2, hinner⟩
      · simp [load_redaction_patterns_from_config, load_patterns_body, hval,
          hnone, habs2]
      · rcases hinner with habs3 | ⟨src1, hval3, hnone3⟩
        · simp [load_redaction_patterns_from_config, load_patterns_body, hval,
            hnone, hval2, habs3]
        · simp [load_redaction_patterns_from_config, load_patterns_body, hval,
            hnone, hval2, hval3, hnone3]

/-- C8 witness: three concrete configurations exercising the root hit, the
nested fallback, and the defaults fallback. -/
theorem claim_c8_witness :
    load_redaction_patterns_from_config
        ⟨.val (.dicts [⟨some "\\bx\\b", some "Y"⟩]), .absent⟩
      = .ok (some [⟨some "\\bx\\b", some "Y"⟩])
      ∧ load_redaction_patterns_from_config
          ⟨.absent, .val ⟨.val (.dicts [⟨some "\\bx\\b", some "Y"⟩])⟩⟩
        = .ok (some [⟨some "\\bx\\b", some "Y"⟩])
      ∧ load_redaction_patterns_from_config emptyConfig = .ok none := by
  refine ⟨?_, ?_, ?_⟩
  · exact (claim_c8_pattern_resolution_order _).1 _ _ rfl rfl (by simp)
  · exact (claim_c8_pattern_resolution_order _).2.1 _ _ _ (Or.inl rfl) rfl rfl rfl (by simp)
  · exact (claim_c8_pattern_resolution_order _).2.2 (Or.inl rfl) (Or.inl rfl)

end Shields